import Mathlib

/-!
Verification of the peg-solitaire simulation engine (`src/main.cpp`).

Modelling conventions.  The C++ board `std::array<std::array<FieldState, size>,
size>` is embedded as a total function `Nat → Nat → FieldState` together with an
explicit size parameter; a sequential array element assignment becomes a
`setCell` update, with later updates shadowing earlier ones exactly as array
writes do.  `std::optional` becomes `Option`.  A failing `assert` aborts the
process, which is modelled by returning `none`.  The C standard library
generator (`srand` / `rand`) is outside the repository, so the simulation
driver is parameterised by the stream of successive `rand()` outputs; the
`while` loop of `run_simulation` is embedded with explicit fuel, and we prove
that the fuel bound used by the driver is never exhausted.
-/

namespace PegSim

/-- C++ `enum class FieldState` from `src/main.cpp`. -/
inductive FieldState where
  | UNUSABLE
  | EMPTY
  | OCCUPIED
  deriving DecidableEq, Repr

/-- C++ `Board<size>`: a square array of cell states, modelled as a total
function from (row, column) to state; the side length is carried separately. -/
def Board : Type := Nat → Nat → FieldState

/-- One array element assignment `board[r][c] = v`. -/
def setCell (b : Board) (r c : Nat) (v : FieldState) : Board :=
  fun i j => if i = r ∧ j = c then v else b i j

/-- Body of the first cutout loop of `make_board`: for a given row `index`,
columns `0`, `1`, `size-2`, `size-1` are made unusable (lines 33-38). -/
def cutRowWide (n : Nat) (b : Board) (index : Nat) : Board :=
  setCell (setCell (setCell (setCell b index 0 .UNUSABLE)
    index 1 .UNUSABLE) index (n - 2) .UNUSABLE) index (n - 1) .UNUSABLE

/-- Body of the second cutout loop of `make_board`: for a given row `index`,
columns `0` and `size-1` are made unusable (lines 40-43). -/
def cutRowNarrow (n : Nat) (b : Board) (index : Nat) : Board :=
  setCell (setCell b index 0 .UNUSABLE) index (n - 1) .UNUSABLE

/-- C++ `make_board<size>()` (lines 22-47): every cell occupied, then the
corner cutouts (rows `{0, size-1}` wide, rows `{1, size-2}` narrow), then the
center cell `(size/2, size/2)` is emptied. -/
def make_board (n : Nat) : Board :=
  let b0 : Board := fun _ _ => .OCCUPIED
  let b1 := cutRowWide n (cutRowWide n b0 0) (n - 1)
  let b2 := cutRowNarrow n (cutRowNarrow n b1 1) (n - 2)
  setCell b2 (n / 2) (n / 2) .EMPTY

/-- C++ `get_from_board` (lines 89-96): bounds-checked lookup, `none` when the
row or column is negative or at least `size`. -/
def get_from_board (n : Nat) (b : Board) (row column : Int) : Option FieldState :=
  if row < 0 ∨ column < 0 ∨ (n : Int) ≤ row ∨ (n : Int) ≤ column then none
  else some (b row.toNat column.toNat)

/-- C++ `struct Move` (lines 76-79); the C++ field names are `from` and `to`,
which are renamed `origin` and `dest` because `from` is a Lean keyword. -/
structure Move where
  origin : Nat × Nat
  dest : Nat × Nat
  deriving DecidableEq, Repr

/-- The fixed direction order of `get_move` (line 100). -/
def directions : List (Int × Int) := [(0, 1), (1, 0), (-1, 0), (0, -1)]

/-- C++ `get_move` (lines 98-127): scan all cells in row-major order, rotate
each index toroidally by the offset, and from the first occupied rotated cell
return the first jump (in the fixed direction order) over an occupied neighbour
into an empty cell two steps away. -/
def get_move (n : Nat) (b : Board) (offset : Nat × Nat) : Option Move :=
  (List.range n).findSome? fun row =>
    (List.range n).findSome? fun column =>
      let offsetted_row := (row + offset.1) % n
      let offsetted_column := (column + offset.2) % n
      if get_from_board n b offsetted_row offsetted_column = some .OCCUPIED then
        directions.findSome? fun d =>
          match get_from_board n b ((offsetted_row : Int) + d.1)
              ((offsetted_column : Int) + d.2) with
          | some .OCCUPIED =>
            let target_row : Int := (offsetted_row : Int) + 2 * d.1
            let target_column : Int := (offsetted_column : Int) + 2 * d.2
            match get_from_board n b target_row target_column with
            | some .EMPTY =>
              some ⟨(offsetted_row, offsetted_column),
                    (target_row.toNat, target_column.toNat)⟩
            | _ => none
          | _ => none
      else none

/-- C++ `std::midpoint` on unsigned integers: the midpoint of `a` and `b`
rounded towards the first argument `a`. -/
def midpoint (a b : Nat) : Nat :=
  if a ≤ b then a + (b - a) / 2 else a - (a - b) / 2

/-- C++ `do_move` (lines 130-145), with each `assert` modelled as a guard whose
failure returns `none` (process abort).  Note the literal translation of line
140: the second assertion re-reads the *origin* cell (just assigned `EMPTY`)
rather than the destination cell. -/
def do_move (b : Board) (m : Move) : Option Board :=
  let fr := m.origin.1
  let fc := m.origin.2
  let tr := m.dest.1
  let tc := m.dest.2
  if b fr fc = .OCCUPIED then
    let b1 := setCell b fr fc .EMPTY
    if b1 fr fc = .EMPTY then
      let b2 := setCell b1 tr tc .OCCUPIED
      if b2 (midpoint fr tr) (midpoint fc tc) = .OCCUPIED then
        some (setCell b2 (midpoint fr tr) (midpoint fc tc) .EMPTY)
      else none
    else none
  else none

/-- C++ `get_score` (lines 147-155): per-row counts of occupied cells,
accumulated. -/
def get_score (n : Nat) (b : Board) : Nat :=
  ((List.range n).map fun r =>
    (List.range n).countP fun c => decide (b r c = FieldState.OCCUPIED)).sum

/-- The `while (possible_move)` loop of C++ `run_simulation` (lines 174-191),
made structurally recursive on explicit fuel.  `stream i` is the `i`-th output
of `rand()` after `srand(seed)`; each iteration draws the row offset first and
the column offset second.  Returns the move history, final board, index of the
next unconsumed draw, and the incrementally tracked score; `none` means either
an assertion failure inside `do_move` or fuel exhaustion (both proven
impossible below). -/
def sim_loop (stream : Nat → Nat) :
    Nat → Board → Nat → List Move → Int → Option (List Move × Board × Nat × Int)
  | 0, _, _, _, _ => none
  | fuel + 1, board, idx, hist, score =>
    match get_move 9 board (stream idx, stream (idx + 1)) with
    | none => some (hist, board, idx, score)
    | some m =>
      match do_move board m with
      | none => none
      | some board2 => sim_loop stream fuel board2 (idx + 2) (hist ++ [m]) (score - 1)

/-- C++ `run_simulation` (lines 157-206) for a fixed generator stream: board
size 9, score initialised to `9*9 - 13`, loop until no move is available.  The
fuel `81` strictly exceeds the initial occupied count `68`, and the loop is
proven to halt before exhausting it. -/
def run_simulation (stream : Nat → Nat) : Option (List Move × Board × Nat × Int) :=
  sim_loop stream 81 (make_board 9) 0 [] (9 * 9 - 13)

theorem setCell_self (b : Board) (r c : Nat) (v : FieldState) : setCell b r c v r c = v := by
  simp [setCell]

theorem setCell_ne (b : Board) (r c : Nat) (v : FieldState) (i j : Nat)
    (h : ¬(i = r ∧ j = c)) : setCell b r c v i j = b i j := by
  simp [setCell, h]

theorem cutRowWide_apply (n : Nat) (b : Board) (index i j : Nat) :
    cutRowWide n b index i j =
      if i = index ∧ (j = 0 ∨ j = 1 ∨ j = n - 2 ∨ j = n - 1) then .UNUSABLE else b i j := by
  simp only [cutRowWide, setCell]
  split_ifs <;> first | rfl | omega

theorem cutRowNarrow_apply (n : Nat) (b : Board) (index i j : Nat) :
    cutRowNarrow n b index i j =
      if i = index ∧ (j = 0 ∨ j = n - 1) then .UNUSABLE else b i j := by
  simp only [cutRowNarrow, setCell]
  split_ifs <;> first | rfl | omega

/-- The corner cutout region actually produced by `make_board`: three cells in
each corner (an L-triomino), not a 2-by-2 block. -/
def in_cutout (n i j : Nat) : Prop :=
  ((i = 0 ∨ i = n - 1) ∧ (j = 0 ∨ j = 1 ∨ j = n - 2 ∨ j = n - 1)) ∨
  ((i = 1 ∨ i = n - 2) ∧ (j = 0 ∨ j = n - 1))

instance (n i j : Nat) : Decidable (in_cutout n i j) := by
  unfold in_cutout; infer_instance

theorem make_board_apply (n i j : Nat) :
    make_board n i j =
      if i = n / 2 ∧ j = n / 2 then .EMPTY
      else if in_cutout n i j then .UNUSABLE
      else .OCCUPIED := by
  simp only [make_board, cutRowNarrow_apply, cutRowWide_apply, setCell, in_cutout]
  split_ifs <;> first | rfl | omega
/-- Claim C4, counterexample: cell `(1, 1)` lies inside the claimed 2-by-2
top-left corner block of the 9-board, yet `make_board` leaves it occupied:
each corner cutout is only an L-triomino of 3 cells. -/
theorem corner_block_not_all_unusable : make_board 9 1 1 ≠ FieldState.UNUSABLE := by decide

/-- Claim C4 (amended): on the board produced by `make_board n` (odd `n ≥ 3`),
the four corner cutouts are L-triominoes — rows `0` and `n-1` have columns
`{0, 1, n-2, n-1}` unusable, rows `1` and `n-2` have columns `{0, n-1}`
unusable (so cell `(1,1)` and its three mirror images are playable) — the
center cell is the unique empty cell, and every other in-range cell is
occupied. -/
theorem make_board_layout (n : Nat) (hodd : Odd n) (h3 : 3 ≤ n) :
    ∀ i j, i < n → j < n →
      (make_board n i j = .UNUSABLE ↔ in_cutout n i j) ∧
      (make_board n i j = .EMPTY ↔ i = n / 2 ∧ j = n / 2) ∧
      (make_board n i j = .OCCUPIED ↔ ¬in_cutout n i j ∧ ¬(i = n / 2 ∧ j = n / 2)) := by
  intro i j hi hj
  have hodd' : n % 2 = 1 := Nat.odd_iff.mp hodd
  have hcc : ¬(in_cutout n (n / 2) (n / 2)) := by unfold in_cutout; omega
  by_cases hc : i = n / 2 ∧ j = n / 2
  · have hcut : ¬ in_cutout n i j := by rw [hc.1, hc.2]; exact hcc
    simp [make_board_apply, hc, hcut, hcc]
  · by_cases hcut : in_cutout n i j
    · simp [make_board_apply, hc, hcut]
    · simp [make_board_apply, hc, hcut]

/-- Witness for `make_board_layout` at `n = 9`, cell `(2, 0)`. -/
theorem make_board_layout_witness :
    (make_board 9 2 0 = FieldState.UNUSABLE ↔ in_cutout 9 2 0) ∧
    (make_board 9 2 0 = FieldState.EMPTY ↔ 2 = 9 / 2 ∧ 0 = 9 / 2) ∧
    (make_board 9 2 0 = FieldState.OCCUPIED ↔ ¬in_cutout 9 2 0 ∧ ¬(2 = 9 / 2 ∧ 0 = 9 / 2)) :=
  make_board_layout 9 (by decide) (by decide) 2 0 (by decide) (by decide)

/-- Number of cells of the `n`-board holding state `s` (the spec's census
vocabulary; for `s = OCCUPIED` this is proven equal to `get_score`). -/
def countState (n : Nat) (b : Board) (s : FieldState) : Nat :=
  ∑ p ∈ Finset.range n ×ˢ Finset.range n, if b p.1 p.2 = s then 1 else 0

/-- Claim C3, counterexample: at `N = 3` (odd) the board has 8 unusable cells,
not 12 — the three-cell corner cutouts overlap on a 3-by-3 board. -/
theorem make_board_census_fails_at_three :
    ¬ (countState 3 (make_board 3) FieldState.UNUSABLE = 12) := by decide
theorem mb_unusable_iff (n : Nat) (h5 : 5 ≤ n) (i j : Nat) :
    make_board n i j = FieldState.UNUSABLE ↔ in_cutout n i j := by
  rw [make_board_apply]
  by_cases h1 : i = n / 2 ∧ j = n / 2
  · obtain ⟨hi, hj⟩ := h1
    subst hi; subst hj
    have h2 : ¬ in_cutout n (n / 2) (n / 2) := by unfold in_cutout; omega
    simp [h2]
  · by_cases h2 : in_cutout n i j <;> simp [h1, h2]

theorem mb_empty_iff (n : Nat) (h5 : 5 ≤ n) (i j : Nat) :
    make_board n i j = FieldState.EMPTY ↔ (i = n / 2 ∧ j = n / 2) := by
  rw [make_board_apply]
  by_cases h1 : i = n / 2 ∧ j = n / 2
  · simp [h1]
  · by_cases h2 : in_cutout n i j <;> simp [h1, h2]

theorem countState_empty (n : Nat) (h5 : 5 ≤ n) :
    countState n (make_board n) FieldState.EMPTY = 1 := by
  unfold countState
  have h : ∀ p ∈ Finset.range n ×ˢ Finset.range n,
      (if make_board n p.1 p.2 = FieldState.EMPTY then (1 : ℕ) else 0)
        = (if p = ((n / 2 : ℕ), (n / 2 : ℕ)) then 1 else 0) := by
    rintro ⟨i, j⟩ _
    simp only [mb_empty_iff n h5, Prod.mk.injEq]
  rw [Finset.sum_congr rfl h, Finset.sum_ite_eq']
  have hmem : ((n / 2 : ℕ), (n / 2 : ℕ)) ∈ Finset.range n ×ˢ Finset.range n := by
    simp only [Finset.mem_product, Finset.mem_range]
    omega
  simp [hmem]

theorem countState_unusable (n : Nat) (h5 : 5 ≤ n) :
    countState n (make_board n) FieldState.UNUSABLE = 12 := by
  unfold countState
  have h : ∀ p ∈ Finset.range n ×ˢ Finset.range n,
      (if make_board n p.1 p.2 = FieldState.UNUSABLE then (1 : ℕ) else 0)
        = (if in_cutout n p.1 p.2 then 1 else 0) := by
    rintro ⟨i, j⟩ _
    simp only [mb_unusable_iff n h5]
  rw [Finset.sum_congr rfl h, Finset.sum_boole]
  have hset : (Finset.range n ×ˢ Finset.range n).filter (fun p => in_cutout n p.1 p.2)
      = (({0, n-1} : Finset ℕ) ×ˢ ({0, 1, n-2, n-1} : Finset ℕ))
        ∪ (({1, n-2} : Finset ℕ) ×ˢ ({0, n-1} : Finset ℕ)) := by
    ext ⟨i, j⟩
    simp only [Finset.mem_filter, Finset.mem_product, Finset.mem_range, Finset.mem_union,
      Finset.mem_insert, Finset.mem_singleton, in_cutout]
    omega
  have hdisj : Disjoint (({0, n-1} : Finset ℕ) ×ˢ ({0, 1, n-2, n-1} : Finset ℕ))
      (({1, n-2} : Finset ℕ) ×ˢ ({0, n-1} : Finset ℕ)) := by
    rw [Finset.disjoint_left]
    rintro ⟨i, j⟩ hA hB
    simp only [Finset.mem_product, Finset.mem_insert, Finset.mem_singleton] at hA hB
    omega
  have c1 : ({0, n-1} : Finset ℕ).card = 2 := by
    rw [Finset.card_insert_of_not_mem (by simp; omega), Finset.card_singleton]
  have c2 : ({0, 1, n-2, n-1} : Finset ℕ).card = 4 := by
    rw [Finset.card_insert_of_not_mem (by simp; omega),
      Finset.card_insert_of_not_mem (by simp; omega),
      Finset.card_insert_of_not_mem (by simp; omega), Finset.card_singleton]
  have c3 : ({1, n-2} : Finset ℕ).card = 2 := by
    rw [Finset.card_insert_of_not_mem (by simp; omega), Finset.card_singleton]
  rw [hset, Finset.card_union_of_disjoint hdisj, Finset.card_product, Finset.card_product,
    c1, c2, c3]
  norm_num

theorem countState_total (n : Nat) (b : Board) :
    countState n b FieldState.UNUSABLE + countState n b FieldState.EMPTY
      + countState n b FieldState.OCCUPIED = n * n := by
  unfold countState
  rw [← Finset.sum_add_distrib, ← Finset.sum_add_distrib]
  have h : ∀ p ∈ Finset.range n ×ˢ Finset.range n,
      ((if b p.1 p.2 = FieldState.UNUSABLE then (1 : ℕ) else 0)
        + (if b p.1 p.2 = FieldState.EMPTY then 1 else 0))
        + (if b p.1 p.2 = FieldState.OCCUPIED then 1 else 0) = 1 := by
    intro p _
    cases h : b p.1 p.2 <;> simp [h]
  rw [Finset.sum_congr rfl h]
  simp [Finset.card_product]

/-- Claim C3 (amended): for every odd `n ≥ 5` (the claim fails at `n = 3`,
where the cutouts overlap), `make_board n` has exactly one empty cell, located
at the center `(n/2, n/2)`, exactly 12 unusable cells, and `n² - 13` occupied
cells. -/
theorem make_board_census (n : Nat) (hodd : Odd n) (h5 : 5 ≤ n) :
    countState n (make_board n) FieldState.EMPTY = 1 ∧
    make_board n (n / 2) (n / 2) = FieldState.EMPTY ∧
    countState n (make_board n) FieldState.UNUSABLE = 12 ∧
    (countState n (make_board n) FieldState.OCCUPIED : Int) = n * n - 13 := by
  have hE := countState_empty n h5
  have hU := countState_unusable n h5
  have hT := countState_total n (make_board n)
  refine ⟨hE, (mb_empty_iff n h5 (n / 2) (n / 2)).mpr ⟨rfl, rfl⟩, hU, ?_⟩
  have h25 : 25 ≤ n * n := Nat.mul_le_mul h5 h5
  have hc : ((n : ℤ) * n - 13) = ((n * n : ℕ) : ℤ) - 13 := by push_cast; ring
  rw [hc]
  omega

/-- Witness for `make_board_census` at `n = 9`. -/
theorem make_board_census_witness :
    countState 9 (make_board 9) FieldState.EMPTY = 1 ∧
    make_board 9 (9 / 2) (9 / 2) = FieldState.EMPTY ∧
    countState 9 (make_board 9) FieldState.UNUSABLE = 12 ∧
    (countState 9 (make_board 9) FieldState.OCCUPIED : Int) = 9 * 9 - 13 :=
  make_board_census 9 (by decide) (by decide)
theorem findSome_congr {α β : Type} (l : List α) (f g : α → Option β)
    (h : ∀ a ∈ l, f a = g a) : l.findSome? f = l.findSome? g := by
  induction l with
  | nil => rfl
  | cons a t ih =>
    rw [List.findSome?_cons, List.findSome?_cons, h a (by simp)]
    cases g a with
    | some b => rfl
    | none => exact ih fun x hx => h x (by simp [hx])

/-- The toroidal rotation of a scan index by the offset (spec §4.2 step 2):
`rotated_row = (row + offset_row) mod size`, likewise for the column. -/
def rotated (n : Nat) (offset : Nat × Nat) (row column : Nat) : Nat × Nat :=
  ((row + offset.1) % n, (column + offset.2) % n)

/-- Transliteration of the spec's wording of steps 3-4 of the scan (§4.2): a
rotated cell and a direction admit a jump when the rotated cell is occupied,
the adjacent cell in that direction is occupied, and the landing cell two
steps away is empty; the returned move goes from the rotated cell to the
landing cell. -/
def spec_jump (n : Nat) (b : Board) (cell : Nat × Nat) (d : Int × Int) : Option Move :=
  if get_from_board n b cell.1 cell.2 = some FieldState.OCCUPIED ∧
      get_from_board n b ((cell.1 : Int) + d.1) ((cell.2 : Int) + d.2)
        = some FieldState.OCCUPIED ∧
      get_from_board n b ((cell.1 : Int) + 2 * d.1) ((cell.2 : Int) + 2 * d.2)
        = some FieldState.EMPTY then
    some ⟨cell, (((cell.1 : Int) + 2 * d.1).toNat, ((cell.2 : Int) + 2 * d.2).toNat)⟩
  else none

/-- The move finder as the spec words it: enumerate cells in row-major order,
rotate each index toroidally, and return the first admissible jump, trying the
four directions in the fixed order for each cell. -/
def find_move_spec (n : Nat) (b : Board) (offset : Nat × Nat) : Option Move :=
  (List.range n).findSome? fun row =>
    (List.range n).findSome? fun column =>
      directions.findSome? fun d => spec_jump n b (rotated n offset row column) d

theorem cell_body_eq (n : Nat) (b : Board) (or oc : Nat) :
    (if get_from_board n b or oc = some FieldState.OCCUPIED then
        directions.findSome? fun d =>
          match get_from_board n b ((or : Int) + d.1) ((oc : Int) + d.2) with
          | some FieldState.OCCUPIED =>
            match get_from_board n b ((or : Int) + 2 * d.1) ((oc : Int) + 2 * d.2) with
            | some FieldState.EMPTY =>
              some ⟨(or, oc), (((or : Int) + 2 * d.1).toNat, ((oc : Int) + 2 * d.2).toNat)⟩
            | _ => none
          | _ => none
      else none)
    = directions.findSome? fun d => spec_jump n b (or, oc) d := by
  by_cases hocc : get_from_board n b or oc = some FieldState.OCCUPIED
  · rw [if_pos hocc]
    refine findSome_congr _ _ _ fun d _ => ?_
    rcases hadj : get_from_board n b ((or : Int) + d.1) ((oc : Int) + d.2) with _ | s
    · simp [spec_jump, hocc, hadj]
    · cases s
      · simp [spec_jump, hocc, hadj]
      · simp [spec_jump, hocc, hadj]
      · rcases hland : get_from_board n b ((or : Int) + 2 * d.1) ((oc : Int) + 2 * d.2) with _ | t
        · simp [spec_jump, hocc, hadj, hland]
        · cases t
          · simp [spec_jump, hocc, hadj, hland]
          · simp [spec_jump, hocc, hadj, hland]
          · simp [spec_jump, hocc, hadj, hland]
  · rw [if_neg hocc]
    symm
    rw [List.findSome?_eq_none_iff]
    intro d _
    simp [spec_jump, hocc]

theorem get_move_eq_spec_scan (n : Nat) (b : Board) (offset : Nat × Nat) :
    get_move n b offset = find_move_spec n b offset := by
  unfold get_move find_move_spec
  refine findSome_congr _ _ _ fun row _ => ?_
  refine findSome_congr _ _ _ fun column _ => ?_
  exact cell_body_eq n b ((row + offset.1) % n) ((column + offset.2) % n)

/-- Claim C1: `get_move` scans cells in row-major order rotated toroidally by
the offset, returns the first admissible jump (first occupied rotated cell,
first direction in the fixed order `{(0,+1), (+1,0), (-1,0), (0,-1)}` whose
adjacent cell is occupied and whose landing cell is empty), and returns `none`
exactly when no cell/direction combination admits a jump. -/
theorem get_move_scan_spec (n : Nat) (b : Board) (offset : Nat × Nat) :
    get_move n b offset = find_move_spec n b offset ∧
    (get_move n b offset = none ↔
      ∀ row < n, ∀ column < n, ∀ d ∈ directions,
        spec_jump n b (rotated n offset row column) d = none) := by
  refine ⟨get_move_eq_spec_scan n b offset, ?_⟩
  rw [get_move_eq_spec_scan n b offset]
  unfold find_move_spec
  simp only [List.findSome?_eq_none_iff, List.mem_range]

theorem get_from_board_some {n : Nat} {b : Board} {row column : Int} {s : FieldState}
    (h : get_from_board n b row column = some s) :
    0 ≤ row ∧ 0 ≤ column ∧ row < n ∧ column < n ∧ b row.toNat column.toNat = s := by
  unfold get_from_board at h
  split_ifs at h with hc
  injection h with h
  exact ⟨by omega, by omega, by omega, by omega, h⟩

theorem midpoint_self (a : Nat) : midpoint a a = a := by
  unfold midpoint
  split_ifs <;> omega

theorem midpoint_up (a : Nat) : midpoint a (a + 2) = a + 1 := by
  unfold midpoint
  split_ifs <;> omega

theorem midpoint_down (a : Nat) : midpoint (a + 2) a = a + 1 := by
  unfold midpoint
  split_ifs <;> omega

/-- A coordinate pair lies on the `n`-board. -/
def in_range (n : Nat) (p : Nat × Nat) : Prop := p.1 < n ∧ p.2 < n

/-- Spec §3 (Move): origin and destination are exactly two cells apart along
one axis. -/
def two_apart (m : Move) : Prop :=
  (m.origin.1 = m.dest.1 ∧ (m.dest.2 = m.origin.2 + 2 ∨ m.origin.2 = m.dest.2 + 2)) ∨
  (m.origin.2 = m.dest.2 ∧ (m.dest.1 = m.origin.1 + 2 ∨ m.origin.1 = m.dest.1 + 2))

/-- The captured cell of a move: componentwise `std::midpoint` of origin and
destination, as computed by `do_move`. -/
def mid_of (m : Move) : Nat × Nat :=
  (midpoint m.origin.1 m.dest.1, midpoint m.origin.2 m.dest.2)

/-- Spec §3/§4.3: the preconditions of `apply` — in-range coordinates, origin
occupied, destination empty, an orthogonal jump over an occupied midpoint. -/
def valid_move (n : Nat) (b : Board) (m : Move) : Prop :=
  in_range n m.origin ∧ in_range n m.dest ∧ two_apart m ∧
  b m.origin.1 m.origin.2 = FieldState.OCCUPIED ∧
  b m.dest.1 m.dest.2 = FieldState.EMPTY ∧
  b (mid_of m).1 (mid_of m).2 = FieldState.OCCUPIED

instance (n : Nat) (p : Nat × Nat) : Decidable (in_range n p) := by
  unfold in_range; infer_instance

instance (m : Move) : Decidable (two_apart m) := by
  unfold two_apart; infer_instance

instance (n : Nat) (b : Board) (m : Move) : Decidable (valid_move n b m) := by
  unfold valid_move; infer_instance

theorem spec_jump_valid (n : Nat) (b : Board) (cell : Nat × Nat) (d : Int × Int)
    (hd : d ∈ directions) (m : Move) (h : spec_jump n b cell d = some m) :
    valid_move n b m := by
  obtain ⟨or, oc⟩ := cell
  unfold spec_jump at h
  split_ifs at h with hcond
  obtain ⟨hocc, hadj, hland⟩ := hcond
  injection h with h
  subst h
  simp only [directions, List.mem_cons, List.mem_singleton, List.not_mem_nil,
    or_false] at hd
  obtain ⟨_, _, ho3, ho4, hB0⟩ := get_from_board_some hocc
  rw [show ((or : ℤ)).toNat = or by omega, show ((oc : ℤ)).toNat = oc by omega] at hB0
  have hOr : or < n := by omega
  have hOc : oc < n := by omega
  rcases hd with rfl | rfl | rfl | rfl <;>
    dsimp only at hadj hland ⊢ <;>
    obtain ⟨ha1, ha2, ha3, ha4, hB1⟩ := get_from_board_some hadj <;>
    obtain ⟨hl1, hl2, hl3, hl4, hB2⟩ := get_from_board_some hland
  · rw [show ((or : ℤ) + 0).toNat = or by omega,
      show ((oc : ℤ) + 1).toNat = oc + 1 by omega] at hB1
    rw [show ((or : ℤ) + 2 * 0).toNat = or by omega,
      show ((oc : ℤ) + 2 * 1).toNat = oc + 2 by omega] at hB2 ⊢
    refine ⟨⟨hOr, hOc⟩, ⟨hOr, show oc + 2 < n by omega⟩, Or.inl ⟨rfl, Or.inl rfl⟩, hB0, hB2, ?_⟩
    show b (midpoint or or) (midpoint oc (oc + 2)) = FieldState.OCCUPIED
    rw [midpoint_self, midpoint_up]
    exact hB1
  · rw [show ((or : ℤ) + 1).toNat = or + 1 by omega,
      show ((oc : ℤ) + 0).toNat = oc by omega] at hB1
    rw [show ((or : ℤ) + 2 * 1).toNat = or + 2 by omega,
      show ((oc : ℤ) + 2 * 0).toNat = oc by omega] at hB2 ⊢
    refine ⟨⟨hOr, hOc⟩, ⟨show or + 2 < n by omega, hOc⟩, Or.inr ⟨rfl, Or.inl rfl⟩, hB0, hB2, ?_⟩
    show b (midpoint or (or + 2)) (midpoint oc oc) = FieldState.OCCUPIED
    rw [midpoint_self, midpoint_up]
    exact hB1
  · have hor2 : 2 ≤ or := by omega
    rw [show ((or : ℤ) + -1).toNat = or - 1 by omega,
      show ((oc : ℤ) + 0).toNat = oc by omega] at hB1
    rw [show ((or : ℤ) + 2 * -1).toNat = or - 2 by omega,
      show ((oc : ℤ) + 2 * 0).toNat = oc by omega] at hB2 ⊢
    refine ⟨⟨hOr, hOc⟩, ⟨show or - 2 < n by omega, hOc⟩, Or.inr ⟨rfl, Or.inr (show or = (or - 2) + 2 by omega)⟩, hB0, hB2, ?_⟩
    show b (midpoint or (or - 2)) (midpoint oc oc) = FieldState.OCCUPIED
    rw [midpoint_self, show midpoint or (or - 2) = or - 1 by unfold midpoint; split_ifs <;> omega]
    exact hB1
  · have hoc2 : 2 ≤ oc := by omega
    rw [show ((or : ℤ) + 0).toNat = or by omega,
      show ((oc : ℤ) + -1).toNat = oc - 1 by omega] at hB1
    rw [show ((or : ℤ) + 2 * 0).toNat = or by omega,
      show ((oc : ℤ) + 2 * -1).toNat = oc - 2 by omega] at hB2 ⊢
    refine ⟨⟨hOr, hOc⟩, ⟨hOr, show oc - 2 < n by omega⟩, Or.inl ⟨rfl, Or.inr (show oc = (oc - 2) + 2 by omega)⟩, hB0, hB2, ?_⟩
    show b (midpoint or or) (midpoint oc (oc - 2)) = FieldState.OCCUPIED
    rw [midpoint_self, show midpoint oc (oc - 2) = oc - 1 by unfold midpoint; split_ifs <;> omega]
    exact hB1

theorem get_move_valid (n : Nat) (b : Board) (offset : Nat × Nat) (m : Move)
    (h : get_move n b offset = some m) : valid_move n b m := by
  rw [get_move_eq_spec_scan] at h
  unfold find_move_spec at h
  obtain ⟨row, hrow, h⟩ := List.exists_of_findSome?_eq_some h
  obtain ⟨column, hcol, h⟩ := List.exists_of_findSome?_eq_some h
  obtain ⟨d, hd, h⟩ := List.exists_of_findSome?_eq_some h
  exact spec_jump_valid n b (rotated n offset row column) d hd m h

/-- Claim C5: every move returned by the move finder is a valid move — origin
occupied, destination empty, exactly two cells apart along a single axis,
midpoint occupied, all coordinates on the board — i.e. it satisfies the
preconditions of `do_move`. -/
theorem get_move_returns_valid_move (n : Nat) (b : Board) (offset : Nat × Nat) (m : Move)
    (h : get_move n b offset = some m) : valid_move n b m :=
  get_move_valid n b offset m h

/-- Witness for `get_move_returns_valid_move`: on the fresh 9-board with
offset `(0, 0)` the finder returns the jump `(2,4) ~> (4,4)`, which is valid. -/
theorem get_move_returns_valid_move_witness :
    valid_move 9 (make_board 9) (Move.mk (2, 4) (4, 4)) :=
  get_move_returns_valid_move 9 (make_board 9) (0, 0) (Move.mk (2, 4) (4, 4)) (by decide)

theorem pair_ne_components {a b c d : Nat} (h : (a, b) ≠ (c, d)) : ¬(a = c ∧ b = d) :=
  fun hc => h (by rw [hc.1, hc.2])

theorem two_apart_mid (o1 o2 t1 t2 : Nat) (h : two_apart (Move.mk (o1, o2) (t1, t2))) :
    (midpoint o1 t1, midpoint o2 t2) ≠ (o1, o2) ∧
    (midpoint o1 t1, midpoint o2 t2) ≠ (t1, t2) ∧
    (o1, o2) ≠ (t1, t2) := by
  dsimp only [two_apart] at h
  rcases h with ⟨he, h2 | h2⟩ | ⟨he, h2 | h2⟩ <;> subst he <;> subst h2 <;>
    refine ⟨?_, ?_, ?_⟩ <;>
    simp only [midpoint_self, midpoint_up, midpoint_down, Prod.mk.injEq, ne_eq, not_and] <;>
    omega

theorem do_move_valid_some (n : Nat) (b : Board) (m : Move) (hv : valid_move n b m) :
    do_move b m = some (setCell (setCell (setCell b m.origin.1 m.origin.2 FieldState.EMPTY)
      m.dest.1 m.dest.2 FieldState.OCCUPIED) (mid_of m).1 (mid_of m).2 FieldState.EMPTY) := by
  obtain ⟨⟨o1, o2⟩, ⟨t1, t2⟩⟩ := m
  obtain ⟨-, -, hta, hbO, hbE, hbM⟩ := hv
  dsimp only [mid_of] at hbM ⊢
  obtain ⟨hmo, hmt, hot⟩ := two_apart_mid o1 o2 t1 t2 hta
  have h_mo := pair_ne_components hmo
  have h_mt := pair_ne_components hmt
  have hg3 : (setCell (setCell b o1 o2 FieldState.EMPTY) t1 t2 FieldState.OCCUPIED)
      (midpoint o1 t1) (midpoint o2 t2) = FieldState.OCCUPIED := by
    rw [setCell_ne _ _ _ _ _ _ h_mt, setCell_ne _ _ _ _ _ _ h_mo]
    exact hbM
  unfold do_move
  dsimp only
  rw [if_pos hbO, if_pos (setCell_self b o1 o2 FieldState.EMPTY), if_pos hg3]

/-- Claim C6: for every board and move satisfying the `apply` preconditions,
`do_move` succeeds and the resulting board has the origin empty, the
destination occupied, the midpoint empty, and every other cell unchanged. -/
theorem do_move_effect_frame (n : Nat) (b : Board) (m : Move) (hv : valid_move n b m) :
    ∃ b2, do_move b m = some b2 ∧
      b2 m.origin.1 m.origin.2 = FieldState.EMPTY ∧
      b2 m.dest.1 m.dest.2 = FieldState.OCCUPIED ∧
      b2 (mid_of m).1 (mid_of m).2 = FieldState.EMPTY ∧
      ∀ i j, (i, j) ≠ m.origin → (i, j) ≠ m.dest → (i, j) ≠ mid_of m → b2 i j = b i j := by
  refine ⟨_, do_move_valid_some n b m hv, ?_, ?_, ?_, ?_⟩
  all_goals obtain ⟨⟨o1, o2⟩, ⟨t1, t2⟩⟩ := m
  all_goals obtain ⟨-, -, hta, hbO, hbE, hbM⟩ := hv
  all_goals obtain ⟨hmo, hmt, hot⟩ := two_apart_mid o1 o2 t1 t2 hta
  all_goals try dsimp only [mid_of]
  · rw [setCell_ne _ _ _ _ _ _ (pair_ne_components (Ne.symm hmo)),
      setCell_ne _ _ _ _ _ _ (pair_ne_components hot), setCell_self]
  · rw [setCell_ne _ _ _ _ _ _ (pair_ne_components (Ne.symm hmt)), setCell_self]
  · rw [setCell_self]
  · intro i j h1 h2 h3
    try dsimp only [mid_of] at h3
    rw [setCell_ne _ _ _ _ _ _ (pair_ne_components h3),
      setCell_ne _ _ _ _ _ _ (pair_ne_components h2),
      setCell_ne _ _ _ _ _ _ (pair_ne_components h1)]

/-- Witness for `do_move_effect_frame`: on the fresh 9-board, the jump
`(4,2) ~> (4,4)` over `(4,3)` is valid, so `do_move` succeeds with the stated
effect. -/
theorem do_move_effect_frame_witness :
    ∃ b2, do_move (make_board 9) (Move.mk (4, 2) (4, 4)) = some b2 ∧
      b2 4 2 = FieldState.EMPTY ∧
      b2 4 4 = FieldState.OCCUPIED ∧
      b2 (mid_of (Move.mk (4, 2) (4, 4))).1 (mid_of (Move.mk (4, 2) (4, 4))).2
        = FieldState.EMPTY ∧
      ∀ i j, (i, j) ≠ (4, 2) → (i, j) ≠ (4, 4) → (i, j) ≠ mid_of (Move.mk (4, 2) (4, 4)) →
        b2 i j = make_board 9 i j :=
  do_move_effect_frame 9 (make_board 9) (Move.mk (4, 2) (4, 4)) (by decide)

/-- Claim C7 (code bug): `do_move` never checks that the destination cell is
empty.  Line 140 of `src/main.cpp` asserts `from == FieldState::EMPTY` on the
origin reference that line 137 just assigned `EMPTY` — a tautology — instead
of checking `to`.  At the input below the destination `(4,3)` of the move
`(4,1) ~> (4,3)` is occupied, yet `do_move` succeeds instead of aborting. -/
theorem do_move_skips_destination_check :
    make_board 9 4 3 = FieldState.OCCUPIED ∧
    (do_move (make_board 9) (Move.mk (4, 1) (4, 3))).isSome = true := by
  constructor <;> decide

theorem list_sum_map_range (g : Nat → Nat) (n : Nat) :
    ((List.range n).map g).sum = ∑ r ∈ Finset.range n, g r := by
  induction n with
  | zero => simp
  | succ k ih =>
    rw [List.range_succ, List.map_append, List.sum_append, Finset.sum_range_succ, ih]
    simp

theorem countP_range (p : Nat → Bool) (n : Nat) :
    (List.range n).countP p = ∑ c ∈ Finset.range n, if p c then 1 else 0 := by
  induction n with
  | zero => simp
  | succ k ih =>
    rw [List.range_succ, List.countP_append, Finset.sum_range_succ, ih]
    cases hp : p k <;> simp [hp, List.countP_cons]

theorem get_score_eq_countState (n : Nat) (b : Board) :
    get_score n b = countState n b FieldState.OCCUPIED := by
  unfold get_score countState
  rw [Finset.sum_product, list_sum_map_range]
  refine Finset.sum_congr rfl fun r _ => ?_
  rw [countP_range]
  refine Finset.sum_congr rfl fun c _ => ?_
  simp

theorem countState_setCell (n : Nat) (b : Board) (r c : Nat) (v s : FieldState)
    (hr : r < n) (hc : c < n) :
    countState n (setCell b r c v) s + (if b r c = s then 1 else 0)
      = countState n b s + (if v = s then 1 else 0) := by
  unfold countState
  have hmem : ((r, c) : ℕ × ℕ) ∈ Finset.range n ×ˢ Finset.range n := by
    simp only [Finset.mem_product, Finset.mem_range]
    exact ⟨hr, hc⟩
  rw [← Finset.sum_erase_add _ _ hmem, ← Finset.sum_erase_add _ _ hmem]
  have hcongr : ∀ p ∈ (Finset.range n ×ˢ Finset.range n).erase (r, c),
      (if setCell b r c v p.1 p.2 = s then (1 : ℕ) else 0)
        = (if b p.1 p.2 = s then 1 else 0) := by
    rintro ⟨i, j⟩ hp
    have hne : ((i, j) : ℕ × ℕ) ≠ (r, c) := Finset.ne_of_mem_erase hp
    rw [setCell_ne b r c v i j (pair_ne_components hne)]
  rw [Finset.sum_congr rfl hcongr]
  dsimp only
  rw [setCell_self]
  omega

theorem do_move_score (n : Nat) (b : Board) (m : Move) (hv : valid_move n b m) :
    ∃ b2, do_move b m = some b2 ∧ get_score n b2 + 1 = get_score n b := by
  refine ⟨_, do_move_valid_some n b m hv, ?_⟩
  obtain ⟨⟨o1, o2⟩, ⟨t1, t2⟩⟩ := m
  obtain ⟨⟨ho1, ho2⟩, ⟨ht1, ht2⟩, hta, hbO, hbE, hbM⟩ := hv
  dsimp only [mid_of, in_range] at *
  have hm1 : midpoint o1 t1 < n := by unfold midpoint; split_ifs <;> omega
  have hm2 : midpoint o2 t2 < n := by unfold midpoint; split_ifs <;> omega
  rw [get_score_eq_countState, get_score_eq_countState]
  obtain ⟨hmo, hmt, hot⟩ := two_apart_mid o1 o2 t1 t2 hta
  have s1 := countState_setCell n b o1 o2 FieldState.EMPTY FieldState.OCCUPIED ho1 ho2
  have s2 := countState_setCell n (setCell b o1 o2 FieldState.EMPTY) t1 t2
    FieldState.OCCUPIED FieldState.OCCUPIED ht1 ht2
  have s3 := countState_setCell n
    (setCell (setCell b o1 o2 FieldState.EMPTY) t1 t2 FieldState.OCCUPIED)
    (midpoint o1 t1) (midpoint o2 t2) FieldState.EMPTY FieldState.OCCUPIED hm1 hm2
  have e1 : (setCell b o1 o2 FieldState.EMPTY) t1 t2 = FieldState.EMPTY := by
    rw [setCell_ne _ _ _ _ _ _ (pair_ne_components (Ne.symm hot))]
    exact hbE
  have e2 : (setCell (setCell b o1 o2 FieldState.EMPTY) t1 t2 FieldState.OCCUPIED)
      (midpoint o1 t1) (midpoint o2 t2) = FieldState.OCCUPIED := by
    rw [setCell_ne _ _ _ _ _ _ (pair_ne_components hmt),
      setCell_ne _ _ _ _ _ _ (pair_ne_components hmo)]
    exact hbM
  rw [hbO] at s1
  rw [e1] at s2
  rw [e2] at s3
  simp only [reduceCtorEq, if_true, if_false, ite_true, ite_false, reduceIte] at s1 s2 s3
  omega

theorem get_move_score_pos (n : Nat) (b : Board) (offset : Nat × Nat) (m : Move)
    (h : get_move n b offset = some m) : 1 ≤ get_score n b := by
  obtain ⟨⟨ho1, ho2⟩, -, -, hbO, -, -⟩ := get_move_valid n b offset m h
  rw [get_score_eq_countState]
  unfold countState
  have hmem : ((m.origin.1, m.origin.2) : ℕ × ℕ) ∈ Finset.range n ×ˢ Finset.range n := by
    simp only [Finset.mem_product, Finset.mem_range]
    exact ⟨ho1, ho2⟩
  have hle := Finset.single_le_sum
    (f := fun p : ℕ × ℕ => if b p.1 p.2 = FieldState.OCCUPIED then (1 : ℕ) else 0)
    (fun i _ => Nat.zero_le _) hmem
  simp only [hbO, if_true, ite_true, reduceIte] at hle
  exact hle

theorem sim_loop_spec (stream : Nat → Nat) :
    ∀ fuel board idx hist score, get_score 9 board < fuel →
      ∃ hist2 board2 idx2,
        sim_loop stream fuel board idx hist score
          = some (hist ++ hist2, board2, idx2, score - hist2.length) ∧
        get_score 9 board2 + hist2.length = get_score 9 board ∧
        get_move 9 board2 (stream idx2, stream (idx2 + 1)) = none := by
  intro fuel
  induction fuel with
  | zero => intro board idx hist score h; omega
  | succ k ih =>
    intro board idx hist score h
    cases hm : get_move 9 board (stream idx, stream (idx + 1)) with
    | none =>
      refine ⟨[], board, idx, ?_, by simp, hm⟩
      simp [sim_loop, hm]
    | some m =>
      have hv := get_move_valid 9 board (stream idx, stream (idx + 1)) m hm
      obtain ⟨b2, hdm, hscore⟩ := do_move_score 9 board m hv
      have hlt : get_score 9 b2 < k := by omega
      obtain ⟨hist2, board2, idx2, heq, hcount, hmove⟩ :=
        ih b2 (idx + 2) (hist ++ [m]) (score - 1) hlt
      refine ⟨m :: hist2, board2, idx2, ?_, ?_, hmove⟩
      · have hfinal : sim_loop stream (k + 1) board idx hist score
            = some ((hist ++ [m]) ++ hist2, board2, idx2, (score - 1) - hist2.length) := by
          simp only [sim_loop, hm, hdm]
          exact heq
        rw [hfinal]
        simp only [Option.some.injEq, Prod.mk.injEq, List.append_assoc,
          List.singleton_append, List.length_cons, true_and, and_true]
        omega
      · simp only [List.length_cons]
        omega

/-- Claim C9: every simulation run halts without exhausting the driver's fuel,
the loop exits because the move finder reports that no move is available, and
at most `9*9 - 1 = 80` moves are applied. -/
theorem simulation_halts (stream : Nat → Nat) :
    ∃ hist board2 idx2 score2,
      run_simulation stream = some (hist, board2, idx2, score2) ∧
      hist.length ≤ 9 * 9 - 1 ∧
      get_move 9 board2 (stream idx2, stream (idx2 + 1)) = none := by
  have hinit : get_score 9 (make_board 9) < 81 := by decide
  obtain ⟨hist2, board2, idx2, heq, hcount, hmove⟩ :=
    sim_loop_spec stream 81 (make_board 9) 0 [] (9 * 9 - 13) hinit
  have h68 : get_score 9 (make_board 9) = 68 := by decide
  refine ⟨[] ++ hist2, board2, idx2, _, heq, ?_, hmove⟩
  simp only [List.nil_append]
  omega

/-- Claim C8: applying a valid move decreases the occupied-cell count by
exactly one; consequently the driver's incrementally tracked score
(initialised to `9*9 - 13` and decremented once per applied move) equals the
recomputed `get_score` of the final board when the run halts, and both equal
`9*9 - 13` minus the number of moves played. -/
theorem score_decrement_and_driver_agreement :
    (∀ n (b : Board) (m : Move), valid_move n b m →
      ∃ b2, do_move b m = some b2 ∧ get_score n b2 + 1 = get_score n b) ∧
    (∀ stream : Nat → Nat, ∃ hist board2 idx2,
      run_simulation stream = some (hist, board2, idx2, (get_score 9 board2 : Int)) ∧
      (get_score 9 board2 : Int) = (9 * 9 - 13 : Int) - hist.length) := by
  refine ⟨fun n b m hv => do_move_score n b m hv, fun stream => ?_⟩
  have hinit : get_score 9 (make_board 9) < 81 := by decide
  obtain ⟨hist2, board2, idx2, heq, hcount, hmove⟩ :=
    sim_loop_spec stream 81 (make_board 9) 0 [] (9 * 9 - 13) hinit
  have h68 : get_score 9 (make_board 9) = 68 := by decide
  refine ⟨[] ++ hist2, board2, idx2, ?_, ?_⟩
  · unfold run_simulation
    rw [heq]
    simp only [Option.some.injEq, Prod.mk.injEq, true_and, and_true]
    omega
  · simp only [List.nil_append]
    omega

/-- Witness for `score_decrement_and_driver_agreement`: the valid jump
`(2,4) ~> (4,4)` on the fresh 9-board drops the occupied count by one. -/
theorem score_decrement_and_driver_agreement_witness :
    ∃ b2, do_move (make_board 9) (Move.mk (2, 4) (4, 4)) = some b2 ∧
      get_score 9 b2 + 1 = get_score 9 (make_board 9) :=
  score_decrement_and_driver_agreement.1 9 (make_board 9) (Move.mk (2, 4) (4, 4)) (by decide)

/-- Claim C2: the move finder is deterministic — it is a pure function, so two
calls on the same board and offset agree — and a full simulation is a pure
function of the generator draw stream: two runs whose streams agree pointwise
(same seed, same generator algorithm) produce identical move histories, final
boards, and final scores. -/
theorem engine_deterministic :
    (∀ n (b : Board) (offset : Nat × Nat), get_move n b offset = get_move n b offset) ∧
    (∀ g g' : Nat → Nat, (∀ i, g i = g' i) → run_simulation g = run_simulation g') := by
  refine ⟨fun n b offset => rfl, fun g g' h => ?_⟩
  rw [funext h]

/-- Witness for `engine_deterministic` at the constant-zero draw stream. -/
theorem engine_deterministic_witness :
    run_simulation (fun _ => 0) = run_simulation (fun _ => 0) :=
  engine_deterministic.2 (fun _ => 0) (fun _ => 0) (fun _ => rfl)

/-- Boards reachable from the fresh 9-board by repeatedly applying a move
produced by the move finder (the only way `run_simulation` mutates a board). -/
inductive Reachable : Board → Prop where
  | init : Reachable (make_board 9)
  | step (b : Board) (offset : Nat × Nat) (m : Move) (b2 : Board) :
      Reachable b → get_move 9 b offset = some m → do_move b m = some b2 → Reachable b2

theorem do_move_preserves_unusable (b : Board) (offset : Nat × Nat) (m : Move) (b2 : Board)
    (hm : get_move 9 b offset = some m) (hdm : do_move b m = some b2) :
    ∀ i j, (b2 i j = FieldState.UNUSABLE ↔ b i j = FieldState.UNUSABLE) := by
  have hv := get_move_valid 9 b offset m hm
  have hdm2 := do_move_valid_some 9 b m hv
  rw [hdm2] at hdm
  injection hdm with hdm
  subst hdm
  obtain ⟨-, -, -, hbO, hbE, hbM⟩ := hv
  intro i j
  simp only [setCell]
  split_ifs with hA hB hC
  · rw [hA.1, hA.2]
    simp [hbM]
  · rw [hB.1, hB.2]
    simp [hbE]
  · rw [hC.1, hC.2]
    simp [hbO]
  · rfl

/-- Claim C10: the unusable cells are invariant across a whole run — the
finder never returns a move whose origin, midpoint, or destination is
unusable; applying a finder-produced move preserves unusable-ness cellwise;
and every board reachable from the fresh board by finder-produced moves has
exactly the unusable cells of the fresh board. -/
theorem unusable_cells_invariant :
    (∀ n (b : Board) (offset : Nat × Nat) (m : Move), get_move n b offset = some m →
      b m.origin.1 m.origin.2 ≠ FieldState.UNUSABLE ∧
      b (mid_of m).1 (mid_of m).2 ≠ FieldState.UNUSABLE ∧
      b m.dest.1 m.dest.2 ≠ FieldState.UNUSABLE) ∧
    (∀ (b : Board) (offset : Nat × Nat) (m : Move) (b2 : Board),
      get_move 9 b offset = some m → do_move b m = some b2 →
      ∀ i j, (b2 i j = FieldState.UNUSABLE ↔ b i j = FieldState.UNUSABLE)) ∧
    (∀ b : Board, Reachable b →
      ∀ i j, (b i j = FieldState.UNUSABLE ↔ make_board 9 i j = FieldState.UNUSABLE)) := by
  refine ⟨?_, fun b offset m b2 hm hdm => do_move_preserves_unusable b offset m b2 hm hdm, ?_⟩
  · intro n b offset m hm
    obtain ⟨-, -, -, hbO, hbE, hbM⟩ := get_move_valid n b offset m hm
    rw [hbO, hbE, hbM]
    exact ⟨by simp, by simp, by simp⟩
  · intro b hreach
    induction hreach with
    | init => intro i j; rfl
    | step b0 offset m b2 hr hm hdm ih =>
      intro i j
      rw [do_move_preserves_unusable b0 offset m b2 hm hdm i j]
      exact ih i j

/-- Witness for `unusable_cells_invariant`: the first conjunct at the concrete
finder result on the fresh board, and the reachability conjunct at the fresh
board itself. -/
theorem unusable_cells_invariant_witness :
    (make_board 9 2 4 ≠ FieldState.UNUSABLE ∧
     make_board 9 (mid_of (Move.mk (2, 4) (4, 4))).1 (mid_of (Move.mk (2, 4) (4, 4))).2
       ≠ FieldState.UNUSABLE ∧
     make_board 9 4 4 ≠ FieldState.UNUSABLE) ∧
    (∀ i j, (make_board 9 i j = FieldState.UNUSABLE ↔
      make_board 9 i j = FieldState.UNUSABLE)) :=
  ⟨unusable_cells_invariant.1 9 (make_board 9) (0, 0) (Move.mk (2, 4) (4, 4)) (by decide),
   unusable_cells_invariant.2.2 (make_board 9) Reachable.init⟩

/-- Closed instance of `get_move_scan_spec` on the fresh board with offset
`(0, 0)`. -/
theorem get_move_scan_spec_witness :
    get_move 9 (make_board 9) (0, 0) = find_move_spec 9 (make_board 9) (0, 0) ∧
    (get_move 9 (make_board 9) (0, 0) = none ↔
      ∀ row < 9, ∀ column < 9, ∀ d ∈ directions,
        spec_jump 9 (make_board 9) (rotated 9 (0, 0) row column) d = none) :=
  get_move_scan_spec 9 (make_board 9) (0, 0)

/-- Closed instance of `simulation_halts` at the constant-zero draw stream. -/
theorem simulation_halts_witness :
    ∃ hist board2 idx2 score2,
      run_simulation (fun _ => 0) = some (hist, board2, idx2, score2) ∧
      hist.length ≤ 9 * 9 - 1 ∧
      get_move 9 board2 (0, 0) = none :=
  simulation_halts (fun _ => 0)

end PegSim
